import Mathlib

/-!
# Verification of the WentFramework OpenAPI/Swagger synthesis engine

A shallow embedding of the dynamic API-documentation synthesis engine of
WentFramework (package `internal/swagger`, found in the repository sources):
route extraction, reflection-driven schema derivation, example synthesis,
operation building, document assembly and serialization.

Go strings are modelled as Lean `String`; the handful of `strings.*`
library calls used by the source (`Contains`, `Split`, `ToLower`,
`TrimPrefix`, `ReplaceAll`) are re-implemented over the underlying `List
Char` so that every definition reduces inside the kernel. Go maps
(`map[string]T`) are modelled as association lists with Go-assignment
(upsert) semantics: assignment to an existing key replaces the value in
place, assignment to a fresh key appends it; the key set and lookup
behaviour — the only observable features of a Go map besides sorted-key
serialization — coincide with the source.
-/

namespace Went

/-! ## Go string library operations (`strings` package) -/

/-- Byte-wise character comparison, as Go compares string bytes
(identical to code-point order on the ASCII data that occurs here). -/
def charLt (a b : Char) : Bool := a.toNat < b.toNat

/-- Predicate `listPfx pat s`: true when `pat` is a leading segment of `s`
(the test behind Go's `strings.HasPrefix` / `strings.TrimPrefix`). -/
def listPfx : List Char → List Char → Bool
  | [], _ => true
  | _ :: _, [] => false
  | a :: as, b :: bs => a == b && listPfx as bs

/-- Predicate `hasSub pat s`: decides whether `pat` occurs contiguously in `s`. -/
def hasSub (pat : List Char) : List Char → Bool
  | [] => listPfx pat []
  | c :: rest => listPfx pat (c :: rest) || hasSub pat rest

/-- Go `strings.Contains s pat`. -/
def strContains (s pat : String) : Bool := hasSub pat.data s.data

/-- Go `strings.TrimPrefix s pfx`. -/
def strTrimPfx (s pfx : String) : String :=
  if listPfx pfx.data s.data then String.mk (s.data.drop pfx.data.length) else s

/-- The segment of `s` before the first `sep`; Go `strings.Split(s, sep)[0]`
for the single-character separators the source uses. -/
def firstSegment (sep : Char) : List Char → List Char
  | [] => []
  | c :: rest => if c == sep then [] else c :: firstSegment sep rest

/-- Go `strings.ReplaceAll s (one char) (one char)`. -/
def replaceChar (s : String) (a b : Char) : String :=
  String.mk (s.data.map (fun c => if c == a then b else c))

/-- ASCII lower-casing of one character (all the names the source
lower-cases are ASCII). -/
def lowerChar (c : Char) : Char :=
  if 65 ≤ c.toNat ∧ c.toNat ≤ 90 then Char.ofNat (c.toNat + 32) else c

/-- Go `strings.ToLower`. -/
def strToLower (s : String) : String := String.mk (s.data.map lowerChar)

/-! ## JSON-schema values

`ExVal` models the `interface{}`-typed example values the source ever
stores: strings, small integers and booleans. -/

inductive ExVal where
  | str (s : String)
  | int (n : Int)
  | bool (b : Bool)
deriving DecidableEq

/-! ## The `Schema` struct (`internal/swagger`, type `Schema`)

`Schema` is recursive through its `Properties` map and `Items` pointer, so
the map and the optional pointer are given as mutually inductive types
(`SProps` mirrors `map[string]Schema`, `SOpt` mirrors `*Schema`). -/

mutual
inductive Schema where
  | mk (ty : String) (fmt : String) (props : SProps) (req : List String)
       (items : SOpt) (ref : String) (addl : Option Bool) (ex : Option ExVal)
inductive SProps where
  | nil
  | cons (key : String) (val : Schema) (tail : SProps)
inductive SOpt where
  | none
  | some (s : Schema)
end

def Schema.ty : Schema → String
  | .mk t _ _ _ _ _ _ _ => t

def Schema.fmt : Schema → String
  | .mk _ f _ _ _ _ _ _ => f

def Schema.props : Schema → SProps
  | .mk _ _ p _ _ _ _ _ => p

def Schema.req : Schema → List String
  | .mk _ _ _ r _ _ _ _ => r

def Schema.items : Schema → SOpt
  | .mk _ _ _ _ i _ _ _ => i

def Schema.ref : Schema → String
  | .mk _ _ _ _ _ r _ _ => r

def Schema.addl : Schema → Option Bool
  | .mk _ _ _ _ _ _ a _ => a

def Schema.ex : Schema → Option ExVal
  | .mk _ _ _ _ _ _ _ e => e

/-- A schema with only `Type` set (every other field at its Go zero value). -/
def typeOnly (t : String) : Schema := .mk t "" .nil [] .none "" .none .none

/-- A schema with `Type` and `Format` set. -/
def typeFmt (t f : String) : Schema := .mk t f .nil [] .none "" .none .none

/-- A schema with only `$ref` set. -/
def refSchema (r : String) : Schema := .mk "" "" .nil [] .none r .none .none

/-- A schema with `Type` and `Example` set. -/
def typeEx (t : String) (e : ExVal) : Schema :=
  .mk t "" .nil [] .none "" .none (Option.some e)

/-- Overwrite the `Example` field (the Go assignment `s.Example = e`). -/
def Schema.withEx : Schema → Option ExVal → Schema
  | .mk t f p r i rf a _, e => .mk t f p r i rf a e

/-- Go map assignment `m[k] = v` on a `map[string]Schema`. -/
def SProps.insert : SProps → String → Schema → SProps
  | .nil, k, v => .cons k v .nil
  | .cons k0 v0 t, k, v =>
      if k0 = k then .cons k v t else .cons k0 v0 (t.insert k v)

def SProps.keys : SProps → List String
  | .nil => []
  | .cons k _ t => k :: t.keys

def SProps.find : SProps → String → Option Schema
  | .nil, _ => Option.none
  | .cons k v t, k0 => if k = k0 then Option.some v else t.find k0

/-! ## The reflected Go type universe

`GoType` stands for the `reflect.Type` values the deriver inspects:
one constructor per `reflect.Kind` the source switches on, with structs
carrying their name (so `time.Time` is recognizable) and their field
list (field identifier, `json` tag and field type, in declaration
order), and a catch-all `other` for every remaining kind (which the
source funnels into its `default` branch). -/

mutual
inductive GoType where
  | string | int | int8 | int16 | int32 | int64
  | uint | uint8 | uint16 | uint32 | uint64
  | float32 | float64 | bool
  | slice (elem : GoType)
  | strct (name : String) (fields : GoFields)
  | ptr (elem : GoType)
  | other
inductive GoFields where
  | nil
  | cons (fieldName : String) (jsonTag : String) (ty : GoType) (tail : GoFields)
end

/-- Function `generateExample` (internal/swagger): example values by wire-name
convention, falling back on the reflected kind. The kind fallback covers
exactly the kinds the source's `switch` lists: `String`, `Int`, `Int64`,
`Uint`, `Uint64` and `Bool`; every other kind yields `nil`. -/
def generateExample (fieldName : String) (t : GoType) : Option ExVal :=
  match strToLower fieldName with
  | "id" => Option.some (.int 1)
  | "name" => Option.some (.str "John Doe")
  | "email" => Option.some (.str "john@example.com")
  | "created_at" | "updated_at" =>
      Option.some (.str "2025-07-31T15:42:18.792477+03:00")
  | _ =>
    match t with
    | .string => Option.some (.str "example string")
    | .int | .int64 | .uint | .uint64 => Option.some (.int 1)
    | .bool => Option.some (.bool true)
    | _ => Option.none

/-- The conditional example assignment of `generateModelSchema`'s field
loop: `if example := generateExample(...); example != nil
{ fieldSchema.Example = example }`. -/
def applyEx (s : Schema) (ex : Option ExVal) : Schema :=
  match ex with
  | Option.some e => s.withEx (Option.some e)
  | Option.none => s

mutual
/-- Function `generateFieldSchema` (internal/swagger): kind switch from reflected
type to schema. All signed integer kinds map to `integer`; all unsigned
integer kinds map to `integer` with format `int64`; `time.Time` structs
become `string`/`date-time`; other structs recurse; slices become
`array` with a string items placeholder; every unlisted kind (including
pointers) falls to the `string` default. -/
def generateFieldSchema : GoType → Schema
  | .string => typeOnly "string"
  | .int | .int8 | .int16 | .int32 | .int64 => typeOnly "integer"
  | .uint | .uint8 | .uint16 | .uint32 | .uint64 => typeFmt "integer" "int64"
  | .float32 | .float64 => typeOnly "number"
  | .bool => typeOnly "boolean"
  | .slice _ => .mk "array" "" .nil [] (.some (typeOnly "string")) "" .none .none
  | .strct n fields =>
      if n = "time.Time" then typeFmt "string" "date-time"
      else generateFields fields .nil []
  | .ptr _ => typeOnly "string"
  | .other => typeOnly "string"

/-- The field loop of `generateModelSchema`: walks the struct fields in
declaration order accumulating `Properties` and `Required`. A field with
an absent or `"-"` tag is skipped; the wire-name is the tag segment
before the first comma, or the lower-cased field identifier when that
segment is empty; a field is required unless its tag contains
`omitempty`. -/
def generateFields : GoFields → SProps → List String → Schema
  | .nil, props, req => .mk "object" "" props req .none "" .none .none
  | .cons fname tag fty tail, props, req =>
      if tag = "" ∨ tag = "-" then generateFields tail props req
      else
        let jsonName := String.mk (firstSegment ',' tag.data)
        let jsonName := if jsonName = "" then strToLower fname else jsonName
        let fieldSchema := applyEx (generateFieldSchema fty) (generateExample jsonName fty)
        let props := props.insert jsonName fieldSchema
        let req := if strContains tag "omitempty" then req else req ++ [jsonName]
        generateFields tail props req
end

/-- Function `generateModelSchema` (internal/swagger): dereference one pointer
level, then derive an object schema from the struct's fields (a
non-struct argument never occurs in the source; it is given the bare
object schema the loop would produce from zero fields). -/
def generateModelSchema (t : GoType) : Schema :=
  let t := match t with | .ptr e => e | _ => t
  match t with
  | .strct _ fields => generateFields fields .nil []
  | _ => .mk "object" "" .nil [] .none "" .none .none

/-- The reflected shape of `models.User` (app/models, the one model the
source registers): `ID uint`, `Name string`, `Email string`,
`CreatedAt time.Time`, `UpdatedAt time.Time`, with the json tags `id`,
`name`, `email`, `created_at`, `updated_at`. -/
def userGoType : GoType :=
  .strct "models.User" (
    .cons "ID" "id" .uint (
    .cons "Name" "name" .string (
    .cons "Email" "email" .string (
    .cons "CreatedAt" "created_at" (.strct "time.Time" .nil) (
    .cons "UpdatedAt" "updated_at" (.strct "time.Time" .nil) .nil)))))

/-! ## Go maps as association lists -/

/-- Go map assignment `m[k] = v` on a `map[string]α`: replace in place or
append a fresh key. -/
def upsert {α : Type} : List (String × α) → String → α → List (String × α)
  | [], k, v => [(k, v)]
  | (k0, v0) :: rest, k, v =>
      if k0 = k then (k, v) :: rest else (k0, v0) :: upsert rest k v

/-- Go map read `m[k]` (the `value, ok` form). -/
def lookupKey {α : Type} : List (String × α) → String → Option α
  | [], _ => Option.none
  | (k0, v0) :: rest, k => if k0 = k then Option.some v0 else lookupKey rest k

/-! ## Route extraction (`extractRoutes`, internal/swagger) -/

/-- One normalized route record (`RouteInfo` in the source). -/
structure RouteInfo where
  method : String
  path : String
  handlerName : String
  tags : List String
deriving DecidableEq

/-- Function `extractHandlerName`: method concatenated with the path, slashes
replaced by underscores. -/
def extractHandlerName (path method : String) : String :=
  method ++ replaceChar path '/' '_'

/-- Function `extractTags`: convention-based classifier over the path string. -/
def extractTags (path : String) : List String :=
  if strContains path "/users" then ["Users"]
  else if strContains path "/health" then ["Health"]
  else ["API"]

/-- One entry of the walked route registry: what `mux.Route` exposes to
the walker. `GetPathTemplate` and `GetMethods` each either succeed or
return an error; `Option.none` stands for the error case. -/
structure RawRoute where
  pathTemplate : Option String
  methods : Option (List String)
deriving DecidableEq

/-- Function `extractRoutes`: walk the registry; a route whose path template or
method set errors is skipped (the walker callback returns `nil` early);
otherwise one `RouteInfo` is appended per method. -/
def extractRoutes : List RawRoute → List RouteInfo
  | [] => []
  | r :: rest =>
      match r.pathTemplate, r.methods with
      | Option.some p, Option.some ms =>
          ms.map (fun m => ⟨m, p, extractHandlerName p m, extractTags p⟩)
            ++ extractRoutes rest
      | _, _ => extractRoutes rest

/-! ## OpenAPI document structures (`internal/swagger`) -/

structure SwaggerInfo where
  version : String
  title : String
  description : String
  host : String
  basePath : String
deriving DecidableEq

structure Server where
  url : String
  description : String
deriving DecidableEq

structure MediaType where
  schema : Schema

structure Response where
  description : String
  content : List (String × MediaType)

structure RequestBody where
  description : String
  required : Bool
  content : List (String × MediaType)

structure Parameter where
  name : String
  in_ : String
  description : String
  required : Bool
  schema : Schema

structure Operation where
  tags : List String
  summary : String
  description : String
  parameters : List Parameter
  requestBody : Option RequestBody
  responses : List (String × Response)

structure PathItem where
  get : Option Operation
  post : Option Operation
  put : Option Operation
  delete : Option Operation

structure Components where
  schemas : List (String × Schema)

structure SwaggerSpec where
  openapi : String
  info : SwaggerInfo
  servers : List Server
  paths : List (String × PathItem)
  components : Components

/-! ## Schema generation (`generateSchemas`) -/

/-- The fixed generic success envelope (`Response` in `generateSchemas`). -/
def responseSchema : Schema :=
  .mk "object" ""
    (.cons "status" (typeEx "string" (.str "success"))
    (.cons "message" (typeEx "string" (.str "Operation completed successfully"))
    (.cons "data" (.mk "" "" .nil [] .none "" (Option.some true) .none) .nil)))
    ["status", "message"] .none "" .none .none

/-- The fixed generic error envelope (`ErrorResponse` in `generateSchemas`). -/
def errorResponseSchema : Schema :=
  .mk "object" ""
    (.cons "status" (typeEx "string" (.str "error"))
    (.cons "message" (typeEx "string" (.str "Error description")) .nil))
    ["status", "message"] .none "" .none .none

/-- Function `generateSchemas`: one derived schema per entry of the model
registry, then the two fixed envelope schemas. The Go source inlines
the repository's registry — the single hardcoded `models.User` entry,
`repoModelRegistry` below — where this definition takes the registry as
the parameter the spec's Assembler contract describes. -/
def generateSchemas (modelRegistry : List (String × GoType)) : List (String × Schema) :=
  let schemas := modelRegistry.foldl
    (fun acc p => upsert acc p.1 (generateModelSchema p.2)) []
  let schemas := upsert schemas "Response" responseSchema
  upsert schemas "ErrorResponse" errorResponseSchema

/-- The model registry the Go source hardcodes: exactly `models.User`. -/
def repoModelRegistry : List (String × GoType) := [("User", userGoType)]

/-! ## Operation building (`generateSummary`, `generateResponses`,
`generateRequestBody`, `generateOperation`) -/

/-- Function `generateSummary`: fixed table over method and `/api`-stripped path. -/
def generateSummary (method path : String) : String :=
  let cleanPath := strTrimPfx path "/api"
  if path = "/api/health" then "Health check"
  else if method = "GET" ∧ cleanPath = "/users" then "Get all users"
  else if method = "GET" ∧ strContains cleanPath "/users/{id}" then "Get user by ID"
  else if method = "POST" ∧ cleanPath = "/users" then "Create new user"
  else if method = "PUT" ∧ strContains cleanPath "/users/{id}" then "Update user"
  else if method = "DELETE" ∧ strContains cleanPath "/users/{id}" then "Delete user"
  else method ++ " " ++ cleanPath

/-- The single-entry `application/json` content map every response and
request body carries. -/
def jsonContent (s : Schema) : List (String × MediaType) :=
  [("application/json", ⟨s⟩)]

/-- The literal 200 schema of the health-check route. -/
def healthSchema : Schema :=
  .mk "object" ""
    (.cons "status" (typeEx "string" (.str "healthy"))
    (.cons "message" (typeEx "string" (.str "Server is running")) .nil))
    [] .none "" .none .none

/-- Function `generateResponses`: the health path early-returns a single literal
200; otherwise the method switch fills the success entries and 400/500
error entries are always added afterwards. -/
def generateResponses (method path : String) : List (String × Response) :=
  if path = "/api/health" then
    [("200", ⟨"Health check successful", jsonContent healthSchema⟩)]
  else
    let responses : List (String × Response) :=
      if method = "GET" then
        if strContains path "{id}" then
          [("200", ⟨"Resource retrieved successfully",
              jsonContent (refSchema "#/components/schemas/Response")⟩),
           ("404", ⟨"Resource not found",
              jsonContent (refSchema "#/components/schemas/ErrorResponse")⟩)]
        else
          [("200", ⟨"Resources retrieved successfully",
              jsonContent (refSchema "#/components/schemas/Response")⟩)]
      else if method = "POST" then
        [("201", ⟨"Resource created successfully",
            jsonContent (refSchema "#/components/schemas/Response")⟩)]
      else if method = "PUT" then
        [("200", ⟨"Resource updated successfully",
            jsonContent (refSchema "#/components/schemas/Response")⟩)]
      else if method = "DELETE" then
        [("200", ⟨"Resource deleted successfully",
            jsonContent (refSchema "#/components/schemas/Response")⟩)]
      else []
    let responses := upsert responses "400"
      ⟨"Bad request", jsonContent (refSchema "#/components/schemas/ErrorResponse")⟩
    upsert responses "500"
      ⟨"Internal server error", jsonContent (refSchema "#/components/schemas/ErrorResponse")⟩

/-- Function `generateRequestBody`: hardcoded user body for any `/users` path,
absent otherwise. -/
def generateRequestBody (path : String) : Option RequestBody :=
  if strContains path "/users" then
    Option.some ⟨"User data", true, jsonContent (
      .mk "object" ""
        (.cons "name" (typeEx "string" (.str "John Doe"))
        (.cons "email" (typeEx "string" (.str "john@example.com")) .nil))
        ["name", "email"] .none "" .none .none)⟩
  else Option.none

/-- The single path parameter emitted for `{id}` paths. -/
def idParameter : Parameter :=
  ⟨"id", "path", "Resource ID", true, typeOnly "integer"⟩

/-- Function `generateOperation`: tags, summary and responses from the record,
then the `{id}` parameter and the POST/PUT request body. -/
def generateOperation (route : RouteInfo) : Operation :=
  let op : Operation :=
    ⟨route.tags, generateSummary route.method route.path, "", [],
      Option.none, generateResponses route.method route.path⟩
  let op :=
    if strContains route.path "{id}" then {op with parameters := [idParameter]}
    else op
  if route.method = "POST" ∨ route.method = "PUT" then
    {op with requestBody := generateRequestBody route.path}
  else op

/-! ## Path assembly (`generatePaths`) -/

/-- The zero `PathItem` created for a path seen for the first time. -/
def emptyPathItem : PathItem := ⟨.none, .none, .none, .none⟩

/-- The verb switch of `generatePaths`: attach the operation at the slot
of its method; a method outside the four known verbs leaves the item
unchanged. -/
def setVerb (item : PathItem) (method : String) (op : Operation) : PathItem :=
  if method = "GET" then {item with get := Option.some op}
  else if method = "POST" then {item with post := Option.some op}
  else if method = "PUT" then {item with put := Option.some op}
  else if method = "DELETE" then {item with delete := Option.some op}
  else item

/-- Function `generatePaths`: per route, read (or create) the `PathItem` of its
path, attach the built operation at the method's slot, and write the
item back. -/
def generatePaths : List (String × PathItem) → List RouteInfo → List (String × PathItem)
  | paths, [] => paths
  | paths, route :: rest =>
      let item := (lookupKey paths route.path).getD emptyPathItem
      let item := setVerb item route.method (generateOperation route)
      generatePaths (upsert paths route.path item) rest

/-! ## Document assembly (`GenerateSwagger`) -/

/-- Function `GenerateSwagger`: the top-level assembler. The Go function returns
`(spec, error)` but its two error checks are dead — `generateSchemas`
and `generatePaths` unconditionally return `nil` — so the embedding is
total. The model registry is the parameter described above; the route
registry is the list a `router.Walk` yields. -/
def GenerateSwagger (modelRegistry : List (String × GoType))
    (registry : List RawRoute) (info : SwaggerInfo) : SwaggerSpec :=
  let routes := extractRoutes registry
  let schemas := generateSchemas modelRegistry
  let paths := generatePaths [] routes
  { openapi := "3.0.0"
    info := info
    servers := [⟨"http://" ++ info.host, "Development server"⟩]
    paths := paths
    components := ⟨schemas⟩ }

/-- A throwaway `SwaggerInfo` for concrete evaluations. -/
def demoInfo : SwaggerInfo :=
  ⟨"1.0.0", "WentFramework API",
   "Auto-generated API documentation for WentFramework",
   "localhost:3000", "/api"⟩

/-! ## Serialization (`SaveSwaggerSpec` / `json.MarshalIndent`)

Go's `encoding/json` renders struct fields in declaration order with
`omitempty` fields dropped at their zero value (empty string, `false`,
nil pointer, empty slice or map), and renders map keys sorted.
`MarshalIndent`'s whitespace is cosmetic (the spec declares indentation
not a contract), so the model emits the canonical compact form. The
strings in an assembled document contain no characters needing JSON
escaping, so quoting is plain. -/

mutual
inductive Json where
  | str (s : String)
  | int (n : Int)
  | bool (b : Bool)
  | arr (xs : JsonArr)
  | obj (fs : JsonObj)
inductive JsonArr where
  | nil
  | cons (j : Json) (tail : JsonArr)
inductive JsonObj where
  | nil
  | cons (k : String) (j : Json) (tail : JsonObj)
end

def quoteStr (s : String) : String := "\"" ++ s ++ "\""

mutual
def Json.render : Json → String
  | .str s => quoteStr s
  | .int n => toString n
  | .bool b => if b then "true" else "false"
  | .arr xs => "[" ++ xs.render ++ "]"
  | .obj fs => "\x7b" ++ fs.render ++ "\x7d"
def JsonArr.render : JsonArr → String
  | .nil => ""
  | .cons j tail =>
      j.render ++ (match tail with | .nil => "" | .cons _ _ => ",") ++ tail.render
def JsonObj.render : JsonObj → String
  | .nil => ""
  | .cons k j tail =>
      quoteStr k ++ ":" ++ j.render
        ++ (match tail with | .nil => "" | .cons _ _ _ => ",") ++ tail.render
end

/-- Byte-wise string order (Go `<` on strings, the order
`encoding/json` sorts map keys by). -/
def listLt : List Char → List Char → Bool
  | [], [] => false
  | [], _ :: _ => true
  | _ :: _, [] => false
  | a :: as, b :: bs => charLt a b || (a == b && listLt as bs)

def strLt (a b : String) : Bool := listLt a.data b.data

def insSortedKey {α : Type} (k : String) (v : α) : List (String × α) → List (String × α)
  | [] => [(k, v)]
  | (k0, v0) :: rest =>
      if strLt k k0 then (k, v) :: (k0, v0) :: rest
      else (k0, v0) :: insSortedKey k v rest

/-- Sort an association list by key, as `encoding/json` does to maps. -/
def sortByKey {α : Type} (l : List (String × α)) : List (String × α) :=
  l.foldr (fun p acc => insSortedKey p.1 p.2 acc) []

def listToObj : List (String × Json) → JsonObj
  | [] => .nil
  | (k, v) :: rest => .cons k v (listToObj rest)

def listToArr : List Json → JsonArr
  | [] => .nil
  | j :: rest => .cons j (listToArr rest)

def exValJson : ExVal → Json
  | .str s => .str s
  | .int n => .int n
  | .bool b => .bool b

def SProps.isNil : SProps → Bool
  | .nil => true
  | .cons _ _ _ => false

mutual
def Schema.toJson : Schema → Json
  | .mk ty fmt props req items ref addl ex =>
      Json.obj (listToObj (
        (if ty = "" then [] else [("type", Json.str ty)])
        ++ (if fmt = "" then [] else [("format", Json.str fmt)])
        ++ (if props.isNil then []
            else [("properties", Json.obj (listToObj (sortByKey props.toPairs)))])
        ++ (if req.isEmpty then []
            else [("required", Json.arr (listToArr (req.map Json.str)))])
        ++ (match items with
            | .none => []
            | .some s => [("items", s.toJson)])
        ++ (if ref = "" then [] else [("$ref", Json.str ref)])
        ++ (match addl with
            | Option.none => []
            | Option.some b => [("additionalProperties", Json.bool b)])
        ++ (match ex with
            | Option.none => []
            | Option.some v => [("example", exValJson v)])))
def SProps.toPairs : SProps → List (String × Json)
  | .nil => []
  | .cons k v t => (k, v.toJson) :: t.toPairs
end

def MediaType.toJson (m : MediaType) : Json :=
  Json.obj (listToObj [("schema", m.schema.toJson)])

def contentJson (c : List (String × MediaType)) : Json :=
  Json.obj (listToObj (sortByKey (c.map (fun p => (p.1, p.2.toJson)))))

def Response.toJson (r : Response) : Json :=
  Json.obj (listToObj (
    [("description", Json.str r.description)]
    ++ (if r.content.isEmpty then [] else [("content", contentJson r.content)])))

def RequestBody.toJson (rb : RequestBody) : Json :=
  Json.obj (listToObj (
    (if rb.description = "" then [] else [("description", Json.str rb.description)])
    ++ (if rb.required then [("required", Json.bool true)] else [])
    ++ [("content", contentJson rb.content)]))

def Parameter.toJson (p : Parameter) : Json :=
  Json.obj (listToObj (
    [("name", Json.str p.name), ("in", Json.str p.in_)]
    ++ (if p.description = "" then [] else [("description", Json.str p.description)])
    ++ (if p.required then [("required", Json.bool true)] else [])
    ++ [("schema", p.schema.toJson)]))

def Operation.toJson (op : Operation) : Json :=
  Json.obj (listToObj (
    (if op.tags.isEmpty then []
     else [("tags", Json.arr (listToArr (op.tags.map Json.str)))])
    ++ [("summary", Json.str op.summary)]
    ++ (if op.description = "" then [] else [("description", Json.str op.description)])
    ++ (if op.parameters.isEmpty then []
        else [("parameters", Json.arr (listToArr (op.parameters.map Parameter.toJson)))])
    ++ (match op.requestBody with
        | Option.none => []
        | Option.some rb => [("requestBody", rb.toJson)])
    ++ [("responses", Json.obj (listToObj (sortByKey
          (op.responses.map (fun p => (p.1, p.2.toJson))))))]))

def optOpJson (key : String) : Option Operation → List (String × Json)
  | Option.none => []
  | Option.some op => [(key, op.toJson)]

def PathItem.toJson (item : PathItem) : Json :=
  Json.obj (listToObj (
    optOpJson "get" item.get ++ optOpJson "post" item.post
    ++ optOpJson "put" item.put ++ optOpJson "delete" item.delete))

def Server.toJson (s : Server) : Json :=
  Json.obj (listToObj
    [("url", Json.str s.url), ("description", Json.str s.description)])

def SwaggerInfo.toJson (i : SwaggerInfo) : Json :=
  Json.obj (listToObj
    [("version", Json.str i.version), ("title", Json.str i.title),
     ("description", Json.str i.description), ("host", Json.str i.host),
     ("basePath", Json.str i.basePath)])

def Components.toJson (c : Components) : Json :=
  Json.obj (listToObj [("schemas", Json.obj (listToObj (sortByKey
    (c.schemas.map (fun p => (p.1, p.2.toJson))))))])

def SwaggerSpec.toJson (s : SwaggerSpec) : Json :=
  Json.obj (listToObj
    [("openapi", Json.str s.openapi),
     ("info", s.info.toJson),
     ("servers", Json.arr (listToArr (s.servers.map Server.toJson))),
     ("paths", Json.obj (listToObj (sortByKey
        (s.paths.map (fun p => (p.1, p.2.toJson)))))),
     ("components", s.components.toJson)])

/-- Rendering step of `SaveSwaggerSpec`: the byte stream written to the
destination file. -/
def serializeSpec (s : SwaggerSpec) : String := s.toJson.render

/-! ## `$ref` occurrences

`refsList` collects every `$ref` string appearing anywhere inside a
value, mirroring where `encoding/json` would emit a `"$ref"` key. -/

mutual
def Schema.refsList : Schema → List String
  | .mk _ _ props _ items ref _ _ =>
      (if ref = "" then [] else [ref]) ++ props.refsList ++ items.refsList
def SProps.refsList : SProps → List String
  | .nil => []
  | .cons _ v t => v.refsList ++ t.refsList
def SOpt.refsList : SOpt → List String
  | .none => []
  | .some s => s.refsList
end

def contentRefs (c : List (String × MediaType)) : List String :=
  (c.map (fun p => p.2.schema.refsList)).flatten

def optBodyRefs : Option RequestBody → List String
  | Option.none => []
  | Option.some rb => contentRefs rb.content

def Operation.refsList (op : Operation) : List String :=
  (op.parameters.map (fun p => p.schema.refsList)).flatten
  ++ optBodyRefs op.requestBody
  ++ (op.responses.map (fun p => contentRefs p.2.content)).flatten

def optOpRefs : Option Operation → List String
  | Option.none => []
  | Option.some op => op.refsList

def PathItem.refsList (item : PathItem) : List String :=
  optOpRefs item.get ++ optOpRefs item.post
  ++ optOpRefs item.put ++ optOpRefs item.delete

def pathsRefs (paths : List (String × PathItem)) : List String :=
  (paths.map (fun p => p.2.refsList)).flatten

def schemasRefs (schemas : List (String × Schema)) : List String :=
  (schemas.map (fun p => p.2.refsList)).flatten

def SwaggerSpec.refsList (s : SwaggerSpec) : List String :=
  pathsRefs s.paths ++ schemasRefs s.components.schemas

/-- The `$ref` occurrences contributed by a responses map (the third
summand of `Operation.refsList`). -/
def responsesRefs (rs : List (String × Response)) : List String :=
  (rs.map (fun p => contentRefs p.2.content)).flatten

/-! ## Observation helpers used by the theorems -/

/-- The four HTTP verbs `generatePaths` dispatches on. -/
def knownVerbs : List String := ["GET", "POST", "PUT", "DELETE"]

/-- Read the operation a `PathItem` holds at a verb's slot. -/
def verbSlot (method : String) (item : PathItem) : Option Operation :=
  if method = "GET" then item.get
  else if method = "POST" then item.post
  else if method = "PUT" then item.put
  else if method = "DELETE" then item.delete
  else Option.none

/-- The operation an assembled paths map holds at a path/method slot. -/
def opAt (paths : List (String × PathItem)) (p m : String) : Option Operation :=
  match lookupKey paths p with
  | Option.some item => verbSlot m item
  | Option.none => Option.none

/-- The ten integer kinds of the reflected universe, signed or unsigned,
of any width. -/
def isIntegerKind : GoType → Bool
  | .int | .int8 | .int16 | .int32 | .int64 => true
  | .uint | .uint8 | .uint16 | .uint32 | .uint64 => true
  | _ => false

/-- The five unsigned integer kinds. -/
def isUnsignedKind : GoType → Bool
  | .uint | .uint8 | .uint16 | .uint32 | .uint64 => true
  | _ => false

/-- The wire-names `generateExample` special-cases (compared against the
lower-cased field name). -/
def specialNames : List String := ["id", "name", "email", "created_at", "updated_at"]

/-- The kind-based fallback table of the Example Synthesizer, as the
source's `default` branch implements it. -/
def exampleFallback : GoType → Option ExVal
  | .string => Option.some (.str "example string")
  | .int | .int64 | .uint | .uint64 => Option.some (.int 1)
  | .bool => Option.some (.bool true)
  | _ => Option.none

/-! ## Association-list (Go map) lemmas -/

theorem lookupKey_upsert_self {α : Type} (m : List (String × α)) (k : String) (v : α) :
    lookupKey (upsert m k v) k = Option.some v := by
  induction m with
  | nil => simp [upsert, lookupKey]
  | cons p rest ih =>
      obtain ⟨k0, v0⟩ := p
      by_cases h : k0 = k <;> simp [upsert, lookupKey, h, ih]

theorem lookupKey_upsert_ne {α : Type} (m : List (String × α)) (k k' : String) (v : α)
    (h : k' ≠ k) : lookupKey (upsert m k v) k' = lookupKey m k' := by
  induction m with
  | nil => simp [upsert, lookupKey, Ne.symm h]
  | cons p rest ih =>
      obtain ⟨k0, v0⟩ := p
      by_cases h0 : k0 = k
      · subst h0
        simp [upsert, lookupKey, Ne.symm h]
      · simp [upsert, lookupKey, h0, ih]

theorem mem_keys_upsert {α : Type} (m : List (String × α)) (k : String) (v : α)
    (x : String) (hx : x ∈ (upsert m k v).map Prod.fst) :
    x ∈ m.map Prod.fst ∨ x = k := by
  induction m with
  | nil => simpa [upsert] using hx
  | cons p rest ih =>
      obtain ⟨k0, v0⟩ := p
      by_cases h : k0 = k
      · subst h
        simp [upsert] at hx ⊢
        tauto
      · simp only [upsert, if_neg h, List.map_cons, List.mem_cons] at hx ⊢
        rcases hx with hx | hx
        · exact Or.inl (Or.inl hx)
        · rcases ih hx with hx' | hx'
          · exact Or.inl (Or.inr hx')
          · exact Or.inr hx'

theorem mem_keys_upsert_self {α : Type} (m : List (String × α)) (k : String) (v : α) :
    k ∈ (upsert m k v).map Prod.fst := by
  induction m with
  | nil => simp [upsert]
  | cons p rest ih =>
      obtain ⟨k0, v0⟩ := p
      by_cases h : k0 = k <;> simp [upsert, h, ih]

theorem mem_keys_upsert_of_mem {α : Type} (m : List (String × α)) (k : String) (v : α)
    (x : String) (hx : x ∈ m.map Prod.fst) :
    x ∈ (upsert m k v).map Prod.fst := by
  induction m with
  | nil => simp at hx
  | cons p rest ih =>
      obtain ⟨k0, v0⟩ := p
      by_cases h : k0 = k
      · subst h
        simpa [upsert] using hx
      · simp only [List.map_cons, List.mem_cons] at hx
        rcases hx with hx | hx
        · simp [upsert, h, hx]
        · simp [upsert, h, ih hx]

theorem nodup_keys_upsert {α : Type} (m : List (String × α)) (k : String) (v : α)
    (h : (m.map Prod.fst).Nodup) : ((upsert m k v).map Prod.fst).Nodup := by
  induction m with
  | nil => simp [upsert]
  | cons p rest ih =>
      obtain ⟨k0, v0⟩ := p
      simp only [List.map_cons, List.nodup_cons] at h
      by_cases hk : k0 = k
      · subst hk
        simpa [upsert] using h
      · simp only [upsert, if_neg hk, List.map_cons, List.nodup_cons]
        refine ⟨?_, ih h.2⟩
        intro hmem
        rcases mem_keys_upsert rest k v k0 hmem with hc | hc
        · exact h.1 hc
        · exact hk hc

/-! ## Claim theorems -/

/-- C1: assembling over a registry holding only the health-check GET
route and zero models yields `components.schemas` with exactly the keys
`Response` and `ErrorResponse`, and a paths map with exactly one entry
whose single operation's responses hold only the key `200`. -/
theorem health_only_assembly (info : SwaggerInfo) :
    ((GenerateSwagger [] [⟨Option.some "/api/health", Option.some ["GET"]⟩]
        info).components.schemas.map Prod.fst = ["Response", "ErrorResponse"])
    ∧ ((GenerateSwagger [] [⟨Option.some "/api/health", Option.some ["GET"]⟩]
        info).paths.map Prod.fst = ["/api/health"])
    ∧ ∃ item,
        lookupKey (GenerateSwagger [] [⟨Option.some "/api/health", Option.some ["GET"]⟩]
          info).paths "/api/health" = Option.some item
        ∧ item.post = Option.none ∧ item.put = Option.none ∧ item.delete = Option.none
        ∧ ∃ op, item.get = Option.some op
            ∧ op.responses.map Prod.fst = ["200"] :=
  ⟨rfl, rfl, _, rfl, rfl, rfl, rfl, _, rfl, rfl⟩

/-- C1 witness: the theorem instantiated at a concrete info record. -/
theorem health_only_assembly_witness :
    ((GenerateSwagger [] [⟨Option.some "/api/health", Option.some ["GET"]⟩]
        demoInfo).components.schemas.map Prod.fst = ["Response", "ErrorResponse"]) :=
  (health_only_assembly demoInfo).1

/-- C2 counterexample: the unsigned 8-bit kind also receives the
`int64` format refinement, contradicting the claim that only the
unsigned 64-bit width does. -/
theorem uint8_gets_int64 :
    (generateFieldSchema GoType.uint8).ty = "integer"
    ∧ (generateFieldSchema GoType.uint8).fmt = "int64"
    ∧ GoType.uint8 ≠ GoType.uint64 := by
  refine ⟨rfl, rfl, ?_⟩
  intro h
  cases h

/-- C2 amended: every integer kind derives type `integer`, and the
`int64` format refinement is attached exactly for the unsigned kinds
(of every width), never for a signed kind. -/
theorem integer_kind_schema (t : GoType) (ht : isIntegerKind t = true) :
    (generateFieldSchema t).ty = "integer"
    ∧ ((generateFieldSchema t).fmt = "int64" ↔ isUnsignedKind t = true) := by
  cases t <;>
    simp_all [isIntegerKind, isUnsignedKind, generateFieldSchema, typeOnly, typeFmt,
      Schema.ty, Schema.fmt]

/-- C2 amended, witness at the unsigned 64-bit kind. -/
theorem integer_kind_schema_witness :
    isIntegerKind GoType.uint64 = true
    ∧ ((generateFieldSchema GoType.uint64).ty = "integer"
        ∧ ((generateFieldSchema GoType.uint64).fmt = "int64"
            ↔ isUnsignedKind GoType.uint64 = true)) :=
  ⟨by decide, integer_kind_schema GoType.uint64 (by decide)⟩

/-- C3 counterexample: for the non-special wire-name `height` and the
signed 8-bit integer kind, the Example Synthesizer yields no example,
where the claim demands the integer example `1` for every integer
width. -/
theorem int8_example_absent :
    generateExample "height" GoType.int8 = Option.none
    ∧ Option.none ≠ Option.some (ExVal.int 1) := by
  exact ⟨rfl, by simp⟩

/-- C3 amended: for a wire-name outside the special set, the fallback
is by kind exactly as the source's `default` switch lists it: `string`
yields "example string", the kinds `Int`, `Int64`, `Uint` and `Uint64`
yield `1`, `Bool` yields `true`, and every other kind — including the
8-, 16- and 32-bit integer widths — yields no example. -/
theorem example_fallback_by_kind (fieldName : String) (t : GoType)
    (h : strToLower fieldName ∉ specialNames) :
    generateExample fieldName t = exampleFallback t := by
  unfold generateExample exampleFallback
  split
  · exact absurd (by simp [specialNames, *]) h
  · exact absurd (by simp [specialNames, *]) h
  · exact absurd (by simp [specialNames, *]) h
  · exact absurd (by simp [specialNames, *]) h
  · exact absurd (by simp [specialNames, *]) h
  · cases t <;> rfl

/-- C3 amended, witness at a string-kind field named `height`. -/
theorem example_fallback_by_kind_witness :
    strToLower "height" ∉ specialNames
    ∧ generateExample "height" GoType.string = exampleFallback GoType.string :=
  ⟨by decide, example_fallback_by_kind "height" GoType.string (by decide)⟩

/-- C4: the operation built for GET `/api/users/{id}` has exactly one
parameter — named `id`, located in the path, required, of schema type
integer — and its responses map has exactly the keys 200, 404, 400,
500. -/
theorem get_by_id_operation (hn : String) (tags : List String) :
    (generateOperation ⟨"GET", "/api/users/{id}", hn, tags⟩).parameters
        = [⟨"id", "path", "Resource ID", true, typeOnly "integer"⟩]
    ∧ (generateOperation ⟨"GET", "/api/users/{id}", hn, tags⟩).responses.map Prod.fst
        = ["200", "404", "400", "500"] :=
  ⟨rfl, rfl⟩

/-- C5: the operation built for POST `/api/users` has exactly the
response keys 201, 400, 500 and a present, required JSON request body
whose object schema has exactly the string properties `name` and
`email`, both required. -/
theorem post_users_operation (hn : String) (tags : List String) :
    (generateOperation ⟨"POST", "/api/users", hn, tags⟩).responses.map Prod.fst
        = ["201", "400", "500"]
    ∧ ∃ rb, (generateOperation ⟨"POST", "/api/users", hn, tags⟩).requestBody
          = Option.some rb
        ∧ rb.required = true
        ∧ ∃ mt, rb.content = [("application/json", mt)]
            ∧ mt.schema.ty = "object"
            ∧ mt.schema.props.keys = ["name", "email"]
            ∧ (mt.schema.props.find "name").map Schema.ty = Option.some "string"
            ∧ (mt.schema.props.find "email").map Schema.ty = Option.some "string"
            ∧ mt.schema.req = ["name", "email"] :=
  ⟨rfl, _, rfl, rfl, _, rfl, rfl, rfl, rfl, rfl, rfl⟩

/-- C8: the generate-and-serialize pipeline is deterministic — the
embedding of the pipeline is a pure function of the registries and the
info record (the source consults no clock on this path; its only
timestamp is the fixed example literal inside `generateExample`), so
two invocations over the same inputs produce byte-identical serialized
output. -/
theorem assemble_serialize_deterministic (modelRegistry : List (String × GoType))
    (registry : List RawRoute) (info : SwaggerInfo) :
    serializeSpec (GenerateSwagger modelRegistry registry info)
      = serializeSpec (GenerateSwagger modelRegistry registry info) := rfl

/-- C9: a registered route whose path template or method set cannot be
obtained is silently skipped: extraction of the surrounding registry is
unchanged, so no record (hence no operation) is emitted for it and all
other routes are still extracted. -/
theorem malformed_route_skipped (l1 l2 : List RawRoute) (bad : RawRoute)
    (h : bad.pathTemplate = Option.none ∨ bad.methods = Option.none) :
    extractRoutes (l1 ++ bad :: l2) = extractRoutes (l1 ++ l2) := by
  induction l1 with
  | nil =>
      rcases bad with ⟨pt, ms⟩
      rcases pt with _ | p <;> rcases ms with _ | m <;> simp_all [extractRoutes]
  | cons r l1 ih =>
      rcases r with ⟨pt, ms⟩
      rcases pt with _ | p <;> rcases ms with _ | m <;> simp [extractRoutes, ih]

/-- C9 witness: a method-less route between two well-formed routes. -/
theorem malformed_route_skipped_witness :
    ((⟨Option.some "/api/x", Option.none⟩ : RawRoute).pathTemplate = Option.none
      ∨ (⟨Option.some "/api/x", Option.none⟩ : RawRoute).methods = Option.none)
    ∧ extractRoutes
        [⟨Option.some "/api/health", Option.some ["GET"]⟩,
         ⟨Option.some "/api/x", Option.none⟩,
         ⟨Option.some "/api/users", Option.some ["POST"]⟩]
      = extractRoutes
        [⟨Option.some "/api/health", Option.some ["GET"]⟩,
         ⟨Option.some "/api/users", Option.some ["POST"]⟩] :=
  ⟨Or.inr rfl,
    malformed_route_skipped
      [⟨Option.some "/api/health", Option.some ["GET"]⟩]
      [⟨Option.some "/api/users", Option.some ["POST"]⟩]
      ⟨Option.some "/api/x", Option.none⟩ (Or.inr rfl)⟩

/-- C10 (implicit): a route whose method is outside
{GET, POST, PUT, DELETE} is still extracted as a record, and path
building still writes a `PathItem` entry for its path — the previous
item if one exists, the empty item otherwise — attaching no operation
to any verb slot. -/
theorem unknown_verb_keeps_path_entry (paths : List (String × PathItem))
    (p m : String) (hm : m ∉ knownVerbs) :
    extractRoutes [⟨Option.some p, Option.some [m]⟩]
        = [⟨m, p, extractHandlerName p m, extractTags p⟩]
    ∧ generatePaths paths (extractRoutes [⟨Option.some p, Option.some [m]⟩])
        = upsert paths p ((lookupKey paths p).getD emptyPathItem)
    ∧ lookupKey (generatePaths paths (extractRoutes [⟨Option.some p, Option.some [m]⟩])) p
        = Option.some ((lookupKey paths p).getD emptyPathItem)
    ∧ (lookupKey paths p = Option.none →
        lookupKey (generatePaths paths (extractRoutes [⟨Option.some p, Option.some [m]⟩])) p
          = Option.some emptyPathItem) := by
  simp only [knownVerbs, List.mem_cons, List.not_mem_nil, or_false, not_or] at hm
  obtain ⟨h1, h2, h3, h4⟩ := hm
  have hex : extractRoutes [⟨Option.some p, Option.some [m]⟩]
      = [⟨m, p, extractHandlerName p m, extractTags p⟩] := by
    simp [extractRoutes]
  have hgen : generatePaths paths (extractRoutes [⟨Option.some p, Option.some [m]⟩])
      = upsert paths p ((lookupKey paths p).getD emptyPathItem) := by
    rw [hex]
    simp [generatePaths, setVerb, h1, h2, h3, h4]
  refine ⟨hex, hgen, ?_, ?_⟩
  · rw [hgen, lookupKey_upsert_self]
  · intro hnone
    rw [hgen, lookupKey_upsert_self, hnone]
    rfl

/-! ## Path assembly: last-write-wins machinery -/

theorem generatePaths_append (l1 l2 : List RouteInfo) (paths : List (String × PathItem)) :
    generatePaths paths (l1 ++ l2) = generatePaths (generatePaths paths l1) l2 := by
  induction l1 generalizing paths with
  | nil => rfl
  | cons r rest ih => exact ih _

theorem verbSlot_empty (m : String) : verbSlot m emptyPathItem = Option.none := by
  unfold verbSlot emptyPathItem
  split_ifs <;> rfl

theorem verbSlot_setVerb_self (m : String) (item : PathItem) (op : Operation)
    (h : m ∈ knownVerbs) : verbSlot m (setVerb item m op) = Option.some op := by
  simp only [knownVerbs, List.mem_cons, List.not_mem_nil, or_false] at h
  rcases h with h | h | h | h <;> subst h <;> simp [verbSlot, setVerb]

theorem verbSlot_setVerb_ne (m method : String) (item : PathItem) (op : Operation)
    (h : method ≠ m) : verbSlot m (setVerb item method op) = verbSlot m item := by
  simp only [setVerb, verbSlot]
  split_ifs <;> simp_all

theorem opAt_upsert_self (paths : List (String × PathItem)) (k m : String)
    (item : PathItem) : opAt (upsert paths k item) k m = verbSlot m item := by
  simp [opAt, lookupKey_upsert_self]

theorem opAt_upsert_ne (paths : List (String × PathItem)) (k p m : String)
    (item : PathItem) (h : p ≠ k) :
    opAt (upsert paths k item) p m = opAt paths p m := by
  simp [opAt, lookupKey_upsert_ne _ _ _ _ h]

theorem opAt_upsert_step (paths : List (String × PathItem)) (route : RouteInfo)
    (p m : String) (h : ¬(route.path = p ∧ route.method = m)) :
    opAt (upsert paths route.path
        (setVerb ((lookupKey paths route.path).getD emptyPathItem)
          route.method (generateOperation route))) p m
      = opAt paths p m := by
  by_cases hp : route.path = p
  · subst hp
    have hm : route.method ≠ m := fun hm => h ⟨rfl, hm⟩
    rw [opAt_upsert_self, verbSlot_setVerb_ne _ _ _ _ hm]
    cases hl : lookupKey paths route.path with
    | none => simp [opAt, hl, verbSlot_empty]
    | some item => simp [opAt, hl]
  · exact opAt_upsert_ne _ _ _ _ _ (Ne.symm hp)

theorem opAt_generatePaths_no_touch (l : List RouteInfo)
    (paths : List (String × PathItem)) (p m : String)
    (h : ∀ r ∈ l, ¬(r.path = p ∧ r.method = m)) :
    opAt (generatePaths paths l) p m = opAt paths p m := by
  induction l generalizing paths with
  | nil => rfl
  | cons r rest ih =>
      have hstep : generatePaths paths (r :: rest)
          = generatePaths (upsert paths r.path
              (setVerb ((lookupKey paths r.path).getD emptyPathItem)
                r.method (generateOperation r))) rest := rfl
      rw [hstep, ih _ (fun r' hr' => h r' (List.mem_cons_of_mem _ hr'))]
      exact opAt_upsert_step paths r p m (h r (List.mem_cons_self _ _))

theorem generatePaths_keys_nodup (l : List RouteInfo)
    (paths : List (String × PathItem)) (h : (paths.map Prod.fst).Nodup) :
    ((generatePaths paths l).map Prod.fst).Nodup := by
  induction l generalizing paths with
  | nil => exact h
  | cons r rest ih => exact ih _ (nodup_keys_upsert _ _ _ h)

/-- C7: when a route list contains two records sharing (method, path),
the later-processed one is the one stored at that path/method slot of
the final paths map (stated for the later record `r` at any position
after which no further record clashes on the same path and method),
and the paths map never holds a duplicate key. -/
theorem duplicate_route_last_write_wins (l1 l2 : List RouteInfo) (r : RouteInfo)
    (hm : r.method ∈ knownVerbs)
    (hl2 : ∀ r' ∈ l2, ¬(r'.path = r.path ∧ r'.method = r.method)) :
    opAt (generatePaths [] (l1 ++ r :: l2)) r.path r.method
        = Option.some (generateOperation r)
    ∧ ((generatePaths [] (l1 ++ r :: l2)).map Prod.fst).Nodup := by
  constructor
  · have h1 : generatePaths [] (l1 ++ r :: l2)
        = generatePaths (upsert (generatePaths [] l1) r.path
            (setVerb ((lookupKey (generatePaths [] l1) r.path).getD emptyPathItem)
              r.method (generateOperation r))) l2 := by
      rw [generatePaths_append]
      rfl
    rw [h1, opAt_generatePaths_no_touch l2 _ _ _ hl2, opAt_upsert_self,
      verbSlot_setVerb_self _ _ _ hm]
  · exact generatePaths_keys_nodup _ _ (by simp)

/-- C7 witness: two GET registrations of `/api/users` differing in their
tags; the assembled slot holds the operation of the second one. -/
theorem duplicate_route_last_write_wins_witness :
    ((⟨"GET", "/api/users", "h2", ["B"]⟩ : RouteInfo).method ∈ knownVerbs)
    ∧ (opAt (generatePaths []
            ([⟨"GET", "/api/users", "h1", ["A"]⟩]
              ++ (⟨"GET", "/api/users", "h2", ["B"]⟩ : RouteInfo) :: []))
          (⟨"GET", "/api/users", "h2", ["B"]⟩ : RouteInfo).path
          (⟨"GET", "/api/users", "h2", ["B"]⟩ : RouteInfo).method
            = Option.some (generateOperation ⟨"GET", "/api/users", "h2", ["B"]⟩)
        ∧ ((generatePaths []
              ([⟨"GET", "/api/users", "h1", ["A"]⟩]
                ++ (⟨"GET", "/api/users", "h2", ["B"]⟩ : RouteInfo) :: [])).map
            Prod.fst).Nodup) :=
  ⟨by decide,
    duplicate_route_last_write_wins [⟨"GET", "/api/users", "h1", ["A"]⟩] []
      ⟨"GET", "/api/users", "h2", ["B"]⟩ (by decide) (by simp)⟩

/-! ## `$ref` resolution machinery -/

theorem refsList_withEx (s : Schema) (e : Option ExVal) :
    (s.withEx e).refsList = s.refsList := by
  cases s
  rfl

theorem refsList_applyEx (s : Schema) (ex : Option ExVal) :
    (applyEx s ex).refsList = s.refsList := by
  cases ex <;> simp [applyEx, refsList_withEx]

theorem upsert_cons_self {α : Type} (k : String) (v0 v : α) (rest : List (String × α)) :
    upsert ((k, v0) :: rest) k v = (k, v) :: rest := by
  simp [upsert]

theorem upsert_cons_ne {α : Type} (k0 k : String) (v0 v : α)
    (rest : List (String × α)) (h : k0 ≠ k) :
    upsert ((k0, v0) :: rest) k v = (k0, v0) :: upsert rest k v := by
  simp [upsert, h]

theorem refsList_insert_nil : (props : SProps) → (k : String) → (v : Schema) →
    props.refsList = [] → v.refsList = [] → (props.insert k v).refsList = []
  | .nil, k, v, _, hv => by
      simp [SProps.insert, SProps.refsList, hv]
  | .cons k0 v0 t, k, v, hp, hv => by
      simp only [SProps.refsList, List.append_eq_nil] at hp
      by_cases h : k0 = k
      · simp [SProps.insert, h, SProps.refsList, hv, hp.2]
      · simp [SProps.insert, h, SProps.refsList, hp.1,
          refsList_insert_nil t k v hp.2 hv]

mutual
theorem generateFieldSchema_refs : (t : GoType) → (generateFieldSchema t).refsList = []
  | .string => rfl
  | .int => rfl
  | .int8 => rfl
  | .int16 => rfl
  | .int32 => rfl
  | .int64 => rfl
  | .uint => rfl
  | .uint8 => rfl
  | .uint16 => rfl
  | .uint32 => rfl
  | .uint64 => rfl
  | .float32 => rfl
  | .float64 => rfl
  | .bool => rfl
  | .slice _ => rfl
  | .strct n fields => by
      unfold generateFieldSchema
      by_cases h : n = "time.Time"
      · simp [h, typeFmt, Schema.refsList, SProps.refsList, SOpt.refsList]
      · simp only [if_neg h]
        exact generateFields_refs fields .nil [] rfl
  | .ptr _ => rfl
  | .other => rfl
theorem generateFields_refs : (fields : GoFields) → (props : SProps) →
    (req : List String) → props.refsList = [] →
    (generateFields fields props req).refsList = []
  | .nil, props, req, h => by
      simp [generateFields, Schema.refsList, h, SOpt.refsList]
  | .cons fname tag fty tail, props, req, h => by
      unfold generateFields
      by_cases ht : tag = "" ∨ tag = "-"
      · simp only [if_pos ht]
        exact generateFields_refs tail props req h
      · simp only [if_neg ht]
        refine generateFields_refs tail _ _ ?_
        refine refsList_insert_nil _ _ _ h ?_
        rw [refsList_applyEx]
        exact generateFieldSchema_refs fty
end

theorem generateModelSchema_refs (t : GoType) :
    (generateModelSchema t).refsList = [] := by
  cases t <;>
    first
      | rfl
      | (exact generateFields_refs _ .nil [] rfl)
      | (rename_i e
         cases e <;>
           first
             | rfl
             | exact generateFields_refs _ .nil [] rfl)

theorem schemasRefs_nil_upsert (m : List (String × Schema)) (k : String) (v : Schema)
    (hm : schemasRefs m = []) (hv : v.refsList = []) :
    schemasRefs (upsert m k v) = [] := by
  induction m with
  | nil => simp [upsert, schemasRefs, hv]
  | cons p rest ih =>
      obtain ⟨k0, v0⟩ := p
      simp only [schemasRefs, List.map_cons, List.flatten_cons, List.append_eq_nil] at hm
      by_cases h : k0 = k
      · subst h
        rw [upsert_cons_self]
        simp only [schemasRefs, List.map_cons, List.flatten_cons]
        rw [hv, List.nil_append]
        exact hm.2
      · rw [upsert_cons_ne _ _ _ _ _ h]
        simp only [schemasRefs, List.map_cons, List.flatten_cons]
        rw [hm.1, List.nil_append]
        exact ih hm.2

theorem schemasRefs_generateSchemas (mr : List (String × GoType)) :
    schemasRefs (generateSchemas mr) = [] := by
  have base : ∀ (l : List (String × GoType)) (acc : List (String × Schema)),
      schemasRefs acc = [] →
      schemasRefs (l.foldl (fun acc p => upsert acc p.1 (generateModelSchema p.2)) acc)
        = [] := by
    intro l
    induction l with
    | nil => exact fun acc h => h
    | cons p rest ih =>
        exact fun acc h =>
          ih _ (schemasRefs_nil_upsert _ _ _ h (generateModelSchema_refs _))
  exact schemasRefs_nil_upsert _ _ _
    (schemasRefs_nil_upsert _ _ _ (base mr [] rfl) rfl) rfl

theorem responsesRefs_upsert_mem (rs : List (String × Response)) (k : String)
    (v : Response) (x : String) (hx : x ∈ responsesRefs (upsert rs k v)) :
    x ∈ responsesRefs rs ∨ x ∈ contentRefs v.content := by
  induction rs with
  | nil =>
      simp only [upsert, responsesRefs, List.map_cons, List.map_nil,
        List.flatten_cons, List.flatten_nil, List.append_nil] at hx
      exact Or.inr hx
  | cons p rest ih =>
      obtain ⟨k0, v0⟩ := p
      by_cases h : k0 = k
      · subst h
        rw [upsert_cons_self] at hx
        simp only [responsesRefs, List.map_cons, List.flatten_cons,
          List.mem_append] at hx ⊢
        tauto
      · rw [upsert_cons_ne _ _ _ _ _ h] at hx
        simp only [responsesRefs, List.map_cons, List.flatten_cons,
          List.mem_append] at hx ⊢
        rcases hx with hx | hx
        · exact Or.inl (Or.inl hx)
        · rcases ih hx with hx' | hx'
          · exact Or.inl (Or.inr hx')
          · exact Or.inr hx'

theorem generateResponses_refs (method path : String) (x : String)
    (hx : x ∈ responsesRefs (generateResponses method path)) :
    x = "#/components/schemas/Response"
      ∨ x = "#/components/schemas/ErrorResponse" := by
  by_cases h1 : path = "/api/health"
  · simp [generateResponses, h1, responsesRefs, contentRefs, jsonContent,
      healthSchema, typeEx, Schema.refsList, SProps.refsList, SOpt.refsList] at hx
  · by_cases h2 : method = "GET"
    · by_cases h3 : strContains path "{id}" = true
      · simp [generateResponses, h1, h2, h3, responsesRefs, contentRefs, upsert,
          jsonContent, refSchema, Schema.refsList, SProps.refsList,
          SOpt.refsList] at hx
        tauto
      · simp [generateResponses, h1, h2, h3, responsesRefs, contentRefs, upsert,
          jsonContent, refSchema, Schema.refsList, SProps.refsList,
          SOpt.refsList] at hx
        tauto
    · by_cases h4 : method = "POST"
      · simp [generateResponses, h1, h2, h4, responsesRefs, contentRefs, upsert,
          jsonContent, refSchema, Schema.refsList, SProps.refsList,
          SOpt.refsList] at hx
        tauto
      · by_cases h5 : method = "PUT"
        · simp [generateResponses, h1, h2, h4, h5, responsesRefs, contentRefs,
            upsert, jsonContent, refSchema, Schema.refsList, SProps.refsList,
            SOpt.refsList] at hx
          tauto
        · by_cases h6 : method = "DELETE"
          · simp [generateResponses, h1, h2, h4, h5, h6, responsesRefs, contentRefs,
              upsert, jsonContent, refSchema, Schema.refsList, SProps.refsList,
              SOpt.refsList] at hx
            tauto
          · simp [generateResponses, h1, h2, h4, h5, h6, responsesRefs, contentRefs,
              upsert, jsonContent, refSchema, Schema.refsList, SProps.refsList,
              SOpt.refsList] at hx
            tauto

theorem optBodyRefs_generateRequestBody (p : String) :
    optBodyRefs (generateRequestBody p) = [] := by
  by_cases h : strContains p "/users" = true <;>
    simp [generateRequestBody, h, optBodyRefs, contentRefs, jsonContent,
      typeEx, Schema.refsList, SProps.refsList, SOpt.refsList]

theorem optBodyRefs_none : optBodyRefs Option.none = [] := rfl

theorem generateOperation_refs (route : RouteInfo) (x : String)
    (hx : x ∈ (generateOperation route).refsList) :
    x = "#/components/schemas/Response"
      ∨ x = "#/components/schemas/ErrorResponse" := by
  refine generateResponses_refs route.method route.path x ?_
  by_cases h1 : strContains route.path "{id}" = true <;>
    by_cases h2 : (route.method = "POST" ∨ route.method = "PUT") <;>
      simpa [generateOperation, h1, h2, Operation.refsList, responsesRefs,
        optBodyRefs_generateRequestBody, optBodyRefs_none, idParameter, typeOnly,
        Schema.refsList, SProps.refsList, SOpt.refsList] using hx

theorem setVerb_refs (item : PathItem) (m : String) (op : Operation) (x : String)
    (hx : x ∈ (setVerb item m op).refsList) :
    x ∈ item.refsList ∨ x ∈ op.refsList := by
  unfold setVerb at hx
  split_ifs at hx <;>
    simp only [PathItem.refsList, optOpRefs, List.mem_append] at hx ⊢ <;>
    tauto

theorem lookupKey_refs (paths : List (String × PathItem)) (p : String)
    (item : PathItem) (h : lookupKey paths p = Option.some item) (x : String)
    (hx : x ∈ item.refsList) : x ∈ pathsRefs paths := by
  induction paths with
  | nil => simp [lookupKey] at h
  | cons q rest ih =>
      obtain ⟨k0, v0⟩ := q
      simp only [lookupKey] at h
      by_cases hk : k0 = p
      · rw [if_pos hk] at h
        injection h with h
        subst h
        simp only [pathsRefs, List.map_cons, List.flatten_cons, List.mem_append]
        exact Or.inl hx
      · rw [if_neg hk] at h
        simp only [pathsRefs, List.map_cons, List.flatten_cons, List.mem_append]
        exact Or.inr (ih h)

theorem pathsRefs_upsert_mem (paths : List (String × PathItem)) (k : String)
    (item : PathItem) (x : String) (hx : x ∈ pathsRefs (upsert paths k item)) :
    x ∈ pathsRefs paths ∨ x ∈ item.refsList := by
  induction paths with
  | nil =>
      simp only [upsert, pathsRefs, List.map_cons, List.map_nil, List.flatten_cons,
        List.flatten_nil, List.append_nil] at hx
      exact Or.inr hx
  | cons p rest ih =>
      obtain ⟨k0, v0⟩ := p
      by_cases h : k0 = k
      · subst h
        rw [upsert_cons_self] at hx
        simp only [pathsRefs, List.map_cons, List.flatten_cons,
          List.mem_append] at hx ⊢
        tauto
      · rw [upsert_cons_ne _ _ _ _ _ h] at hx
        simp only [pathsRefs, List.map_cons, List.flatten_cons,
          List.mem_append] at hx ⊢
        rcases hx with hx | hx
        · exact Or.inl (Or.inl hx)
        · rcases ih hx with hx' | hx'
          · exact Or.inl (Or.inr hx')
          · exact Or.inr hx'

theorem emptyPathItem_refs : PathItem.refsList emptyPathItem = [] := rfl

theorem generatePaths_refs (l : List RouteInfo) (paths : List (String × PathItem))
    (x : String) (hx : x ∈ pathsRefs (generatePaths paths l)) :
    x ∈ pathsRefs paths
      ∨ x = "#/components/schemas/Response"
      ∨ x = "#/components/schemas/ErrorResponse" := by
  induction l generalizing paths with
  | nil => exact Or.inl hx
  | cons r rest ih =>
      rcases ih (upsert paths r.path
          (setVerb ((lookupKey paths r.path).getD emptyPathItem)
            r.method (generateOperation r))) hx with h | h | h
      · rcases pathsRefs_upsert_mem _ _ _ _ h with h' | h'
        · exact Or.inl h'
        · rcases setVerb_refs _ _ _ _ h' with h'' | h''
          · cases hl : lookupKey paths r.path with
            | some it =>
                rw [hl] at h''
                exact Or.inl (lookupKey_refs _ _ _ hl _ h'')
            | none =>
                rw [hl] at h''
                rw [show (Option.none.getD emptyPathItem) = emptyPathItem from rfl,
                  emptyPathItem_refs] at h''
                simp at h''
          · exact Or.inr (generateOperation_refs r x h'')
      · exact Or.inr (Or.inl h)
      · exact Or.inr (Or.inr h)

/-- C6: every `$ref` string occurring anywhere in an assembled document
is one of the two envelope refs, and it resolves to a key present in
`components.schemas` (both envelope schemas are always emitted). -/
theorem refs_resolve (modelRegistry : List (String × GoType))
    (registry : List RawRoute) (info : SwaggerInfo) (x : String)
    (hx : x ∈ (GenerateSwagger modelRegistry registry info).refsList) :
    (x = "#/components/schemas/Response"
      ∨ x = "#/components/schemas/ErrorResponse")
    ∧ ∃ name, x = "#/components/schemas/" ++ name
        ∧ name ∈ (GenerateSwagger modelRegistry registry
            info).components.schemas.map Prod.fst := by
  have hschemas : schemasRefs (generateSchemas modelRegistry) = [] :=
    schemasRefs_generateSchemas _
  have hx' : x ∈ pathsRefs (generatePaths [] (extractRoutes registry)) := by
    simpa [SwaggerSpec.refsList, GenerateSwagger, hschemas] using hx
  have hRE : x = "#/components/schemas/Response"
      ∨ x = "#/components/schemas/ErrorResponse" := by
    rcases generatePaths_refs _ _ _ hx' with h | h | h
    · simp [pathsRefs] at h
    · exact Or.inl h
    · exact Or.inr h
  refine ⟨hRE, ?_⟩
  have hkeyR : "Response" ∈ (generateSchemas modelRegistry).map Prod.fst :=
    mem_keys_upsert_of_mem _ _ _ _ (mem_keys_upsert_self _ _ _)
  have hkeyE : "ErrorResponse" ∈ (generateSchemas modelRegistry).map Prod.fst :=
    mem_keys_upsert_self _ _ _
  rcases hRE with h | h
  · exact ⟨"Response", by rw [h]; rfl, hkeyR⟩
  · exact ⟨"ErrorResponse", by rw [h]; rfl, hkeyE⟩

/-- C6 witness: the concrete document over the repository's model
registry and the GET-by-id route, at the success-envelope ref. -/
theorem refs_resolve_witness :
    ("#/components/schemas/Response"
        ∈ (GenerateSwagger repoModelRegistry
            [⟨Option.some "/api/users/{id}", Option.some ["GET"]⟩]
            demoInfo).refsList)
    ∧ (("#/components/schemas/Response" = "#/components/schemas/Response"
          ∨ "#/components/schemas/Response" = "#/components/schemas/ErrorResponse")
        ∧ ∃ name, "#/components/schemas/Response" = "#/components/schemas/" ++ name
            ∧ name ∈ (GenerateSwagger repoModelRegistry
                [⟨Option.some "/api/users/{id}", Option.some ["GET"]⟩]
                demoInfo).components.schemas.map Prod.fst) :=
  ⟨by decide,
    refs_resolve repoModelRegistry
      [⟨Option.some "/api/users/{id}", Option.some ["GET"]⟩]
      demoInfo "#/components/schemas/Response" (by decide)⟩

/-- C10 witness: a PATCH route on a fresh path. -/
theorem unknown_verb_keeps_path_entry_witness :
    ("PATCH" ∉ knownVerbs)
    ∧ lookupKey
        (generatePaths []
          (extractRoutes [⟨Option.some "/api/users/{id}", Option.some ["PATCH"]⟩]))
        "/api/users/{id}"
      = Option.some ((lookupKey ([] : List (String × PathItem)) "/api/users/{id}").getD
          emptyPathItem) :=
  ⟨by decide,
    (unknown_verb_keeps_path_entry [] "/api/users/{id}" "PATCH" (by decide)).2.2.1⟩

end Went
